import Mathlib

/-!
Verification of the Knowsy party-game core: the round/game state machine and
scoring engine implemented in the game-actions module (`useGameActions`) and
backed by the SQL schema (tables `games`, `game_players`, `rounds`, `rankings`,
`guesses` with their UNIQUE and FOREIGN KEY constraints).

The definitions below are a shallow embedding of that code: each JavaScript
function is translated to a pure Lean function over explicit row/state values;
database writes become state updates, database constraint violations become
rejected inserts that leave the state unchanged, and a caught exception becomes
a `false`/`none` result.
-/

namespace Knowsy

/-- Game status column: CHECK (status IN ('waiting', 'playing', 'finished')). -/
inductive GameStatus where
  | waiting
  | playing
  | finished
deriving DecidableEq, Repr

/-- Round status column: CHECK (status IN ('topic_selection', 'vip_ranking',
'player_guessing', 'revealing', 'complete')). -/
inductive RoundStatus where
  | topic_selection
  | vip_ranking
  | player_guessing
  | revealing
  | complete
deriving DecidableEq, Repr

/-- Scoring configuration columns of the `games` table read by `calculateScores`. -/
structure ScoreConfig where
  points_per_correct : Int
  bonus_all_correct : Int
  penalty_all_wrong : Int
deriving DecidableEq, Repr

/-- One row of the `rankings` table for a round: the VIP's position for one item. -/
structure RankingRow where
  item_id : String
  position : Int
deriving DecidableEq, Repr

/-- One row of the `guesses` table: one player's claimed position for one item,
with the `is_correct` flag stored at submission time. -/
structure GuessRow where
  user_id : String
  item_id : String
  position : Int
  is_correct : Bool
deriving DecidableEq, Repr

/-- The correctness computation in `submitGuess`:
`correctRanking = rankings.find(r => r.item_id === g.itemId)` followed by
`is_correct: correctRanking?.position === g.position`. An item with no ranking
row compares `undefined === position`, which is `false`. -/
def rankingMatches (rankings : List RankingRow) (itemId : String) (pos : Int) : Bool :=
  match rankings.find? (fun r => r.item_id == itemId) with
  | some r => r.position == pos
  | none => false

/-- Lookup in the JavaScript object `scoreUpdates`, modelled as an association
list keyed by user id (first occurrence wins; keys are unique by construction). -/
def lookupA (m : List (String × Int)) (uid : String) : Option Int :=
  (m.find? (fun p => p.1 == uid)).map (fun p => p.2)

/-- The effect of `if (!scoreUpdates[uid]) scoreUpdates[uid] = 0`: create the key
with value `0` when it is absent (when present its value is `k * ppc`; rewriting
a stored `0` with `0` is a no-op, so only absence matters). -/
def ensureKey (m : List (String × Int)) (uid : String) : List (String × Int) :=
  if m.any (fun p => p.1 == uid) then m else m ++ [(uid, 0)]

/-- The effect of `scoreUpdates[uid] += amt` on the association list. -/
def addToKey (m : List (String × Int)) (uid : String) (amt : Int) : List (String × Int) :=
  m.map (fun p => if p.1 == uid then (p.1, p.2 + amt) else p)

/-- One iteration of the first `guesses.forEach` loop of `calculateScores`:
ensure the player has an entry, then add `points_per_correct` when the guess is
correct. -/
def tallyStep (ppc : Int) (m : List (String × Int)) (g : GuessRow) : List (String × Int) :=
  let m1 := ensureKey m g.user_id
  if g.is_correct then addToKey m1 g.user_id ppc else m1

/-- The first loop of `calculateScores`: per-player `correctCount * points_per_correct`. -/
def correctTally (ppc : Int) (guesses : List GuessRow) : List (String × Int) :=
  guesses.foldl (tallyStep ppc) []

/-- `guesses.filter(g => g.user_id === userId)` as used by the bonus/penalty loop. -/
def userGuesses (guesses : List GuessRow) (uid : String) : List GuessRow :=
  guesses.filter (fun g => g.user_id == uid)

/-- The bonus/penalty decision of the second loop of `calculateScores`:
`allCorrect` adds `bonus_all_correct`, else `allWrong` adds `penalty_all_wrong`,
else nothing. -/
def bonusAdjust (cfg : ScoreConfig) (guesses : List GuessRow) (uid : String) : Int :=
  let ugs := userGuesses guesses uid
  if ugs.all (fun g => g.is_correct) then cfg.bonus_all_correct
  else if ugs.all (fun g => !g.is_correct) then cfg.penalty_all_wrong
  else 0

/-- The complete `scoreUpdates` object computed by `calculateScores` before it is
written back to `game_players`: first loop tallies correct guesses, second loop
applies the all-correct bonus or all-wrong penalty per player key. -/
def scoreUpdates (cfg : ScoreConfig) (guesses : List GuessRow) : List (String × Int) :=
  (correctTally cfg.points_per_correct guesses).map
    (fun p => (p.1, p.2 + bonusAdjust cfg guesses p.1))

/-- One row of the `rounds` table (the fields touched by the reveal flow). -/
structure RoundRow where
  status : RoundStatus
  reveal_index : Nat
deriving DecidableEq, Repr

/-- Result of one `revealNext` call: the updated round row together with how many
times `calculateScores` was invoked during the call. -/
structure RevealStep where
  round : RoundRow
  scoringInvocations : Nat
deriving DecidableEq, Repr

/-- `revealNext(roundId, currentIndex, totalItems)`: computes
`nextIndex = currentIndex + 1`; when `nextIndex > totalItems` it sets the round
status to `complete` and calls `calculateScores` once, otherwise it stores
`reveal_index = nextIndex`. -/
def revealNext (r : RoundRow) (currentIndex totalItems : Nat) : RevealStep :=
  let nextIndex := currentIndex + 1
  if totalItems < nextIndex then
    ⟨{ r with status := RoundStatus.complete }, 1⟩
  else
    ⟨{ r with reveal_index := nextIndex }, 0⟩

/-- One row of the `games` table (the fields touched by the round-completion flow). -/
structure GameRow where
  current_vip_id : Option String
  status : GameStatus
  target_score : Int
deriving DecidableEq, Repr

/-- One row of the `game_players` table (the fields touched by scoring). -/
structure PlayerRow where
  user_id : String
  score : Int
deriving DecidableEq, Repr

/-- `startRound`: updates the game status to `'playing'`, with no check of the
current status. -/
def startRound (g : GameRow) : GameRow :=
  { g with status := GameStatus.playing }

/-- Win-condition check at the end of `calculateScores`:
`targetScore = fullGame?.target_score || 1000` (the JavaScript `||` replaces a
falsy stored value, i.e. `0`, by `1000`), then status becomes `'finished'` when
some player has `score >= targetScore`. -/
def checkGameOver (g : GameRow) (players : List PlayerRow) : GameRow :=
  if players.any (fun p => (if g.target_score = 0 then 1000 else g.target_score) ≤ p.score) then
    { g with status := GameStatus.finished }
  else g

/-- One per-player write of the score loop in `calculateScores`: read the
player's score and store `score + scoreChange` (a missing `game_players` row is
silently skipped). -/
def applyOneUpdate (ps : List PlayerRow) (uid : String) (d : Int) : List PlayerRow :=
  ps.map (fun p => if p.user_id == uid then { p with score := p.score + d } else p)

/-- The score-update loop of `calculateScores` run against a persistence layer
in which the write for user `u` succeeds iff `writeOK u`. The code never
inspects the error object returned by a failed `update`, so a failed write
leaves that player's row unchanged and the loop continues; the second component
records whether every write succeeded (information the code discards). -/
def runScoreWrites (ps : List PlayerRow) (updates : List (String × Int))
    (writeOK : String → Bool) : List PlayerRow × Bool :=
  updates.foldl
    (fun acc u =>
      if writeOK u.1 then (applyOneUpdate acc.1 u.1 u.2, acc.2) else (acc.1, false))
    (ps, true)

/-- Outcome of the persistence phase of `calculateScores` as observed by its
caller: the players table after the per-player writes, and the reported result.
Per-write errors are discarded and the surrounding `try/catch` only logs, so the
reported result is success regardless of write failures. -/
def calculateScoresOutcome (ps : List PlayerRow) (updates : List (String × Int))
    (writeOK : String → Bool) : List PlayerRow × Bool :=
  ((runScoreWrites ps updates writeOK).1, true)

/-- The score-update loop of `calculateScores` when every write succeeds. -/
def applyScoreUpdates (ps : List PlayerRow) (updates : List (String × Int)) : List PlayerRow :=
  (runScoreWrites ps updates (fun _ => true)).1

/-- `rotateVIP(gameId, players)`: returns `false` without mutating when
`current_vip_id` is null; otherwise `currentIndex = players.findIndex(...)`
(`-1` when absent), `nextIndex = (currentIndex + 1) % players.length`, and the
next VIP is `players[nextIndex]`. With an empty list `players[NaN]` is
`undefined` and reading `.user_id` throws, which the `catch` turns into `false`
with no mutation. The boolean is the function's return value. -/
def rotateVIP (g : GameRow) (players : List String) : Bool × GameRow :=
  match g.current_vip_id with
  | none => (false, g)
  | some vip =>
    if players.isEmpty then (false, g)
    else
      let currentIndex : Int :=
        match players.findIdx? (fun u => u == vip) with
        | some i => (i : Int)
        | none => -1
      let nextIndex := ((currentIndex + 1) % (players.length : Int)).toNat
      match players.get? nextIndex with
      | some nextVIP => (true, { g with current_vip_id := some nextVIP })
      | none => (false, g)

/-- Modelled from the spec: the single `applyRoundResult` operation the spec
describes is realised in the source as `calculateScores` (score writes plus the
win-condition check, whose comparison uses the `|| 1000` fallback) followed by
the scoreboard screen, whose own winner check is the raw comparison
`playersWithPoints.some(p => p.score >= game.target_score)` — no fallback; when
it finds a winner the rotate action is never offered, and otherwise "Next
Round" invokes `rotateVIP` on the join-ordered player list. This definition
composes those two source pieces with exactly the scoreboard's raw gate. -/
def applyRoundResult (g : GameRow) (ps : List PlayerRow) (updates : List (String × Int)) :
    GameRow × List PlayerRow :=
  let ps' := applyScoreUpdates ps updates
  let g' := checkGameOver g ps'
  if ps'.any (fun p => g.target_score ≤ p.score) then (g', ps')
  else ((rotateVIP g' (ps'.map (fun p => p.user_id))).2, ps')

/-- Pairwise distinctness, used to model the database UNIQUE constraints. -/
def allDistinct [BEq α] : List α → Bool
  | [] => true
  | x :: xs => !(xs.contains x) && allDistinct xs

/-- State of one round's `rankings` table slice: the topic's item ids (the
FOREIGN KEY targets), the ranking rows already stored for the round, and the
round's status. -/
structure RankingInsertState where
  topicItems : List String
  rows : List RankingRow
  status : RoundStatus
deriving DecidableEq, Repr

/-- The rows `submitVIPRanking` builds from its `rankings` argument. -/
def newRankingRows (rankings : List (String × Int)) : List RankingRow :=
  rankings.map (fun r => { item_id := r.1, position := r.2 })

/-- The checks the database performs on the multi-row insert into `rankings`:
`item_id REFERENCES topic_items(id)`, `UNIQUE(round_id, item_id)` and
`UNIQUE(round_id, position)`. A single INSERT statement is atomic: on any
violation no row is stored. -/
def rankingInsertOK (topicItems : List String) (rows newRows : List RankingRow) : Bool :=
  newRows.all (fun r => topicItems.contains r.item_id) &&
  allDistinct ((rows ++ newRows).map (fun r => r.item_id)) &&
  allDistinct ((rows ++ newRows).map (fun r => r.position))

/-- `submitVIPRanking(roundId, rankings)`: inserts the mapped rows, then (only
when the insert succeeded) updates the round status to `'player_guessing'`; a
thrown insert error is caught and turned into a `false` return with the state
unchanged. The function itself validates nothing. -/
def submitVIPRanking (st : RankingInsertState) (rankings : List (String × Int)) :
    Bool × RankingInsertState :=
  let newRows := newRankingRows rankings
  if rankingInsertOK st.topicItems st.rows newRows then
    (true, { st with rows := st.rows ++ newRows, status := RoundStatus.player_guessing })
  else
    (false, st)

/-- State of one round's `guesses` table slice: the topic's item ids, the VIP
ranking rows (read to compute `is_correct`), the round's status, and the guess
rows already stored. -/
structure GuessInsertState where
  topicItems : List String
  rankingRows : List RankingRow
  roundStatus : RoundStatus
  guessRows : List GuessRow
deriving DecidableEq, Repr

/-- The checks the database performs on the multi-row insert into `guesses`:
`item_id REFERENCES topic_items(id)`, `UNIQUE(round_id, user_id, item_id)` and
`UNIQUE(round_id, user_id, position)`. -/
def guessInsertOK (topicItems : List String) (rows newRows : List GuessRow) : Bool :=
  newRows.all (fun g => topicItems.contains g.item_id) &&
  allDistinct ((rows ++ newRows).map (fun g => (g.user_id, g.item_id))) &&
  allDistinct ((rows ++ newRows).map (fun g => (g.user_id, g.position)))

/-- `submitGuess(roundId, userId, guesses)`: reads the VIP rankings, tags every
guess with `is_correct` via `rankingMatches`, and inserts the rows; a
constraint violation is caught and becomes a `false` return with no row stored.
The round's status is never read. -/
def submitGuess (st : GuessInsertState) (uid : String) (guesses : List (String × Int)) :
    Bool × GuessInsertState :=
  let newRows := guesses.map (fun g =>
    { user_id := uid, item_id := g.1, position := g.2,
      is_correct := rankingMatches st.rankingRows g.1 g.2 : GuessRow })
  if guessInsertOK st.topicItems st.guessRows newRows then
    (true, { st with guessRows := st.guessRows ++ newRows })
  else
    (false, st)

/-- One row of the `games` table as seen by `createGame`/`joinGame`. -/
structure GameRec where
  id : String
  code : String
deriving DecidableEq, Repr

/-- One row of the `game_players` table as seen by `createGame`/`joinGame`. -/
structure PlayerRec where
  game_id : String
  user_id : String
  username : String
deriving DecidableEq, Repr

/-- The tables `createGame` and `joinGame` operate on: `games`,
`game_players`, and `profiles` (user id paired with username). -/
structure Lobby where
  games : List GameRec
  game_players : List PlayerRec
  profiles : List (String × String)
deriving DecidableEq, Repr

/-- `profile?.username || 'Player'`: the stored username, falling back to
`'Player'` when the profile is missing or its username is empty (falsy). -/
def profileUsername (profiles : List (String × String)) (uid : String) : String :=
  match profiles.find? (fun p => p.1 == uid) with
  | some p => if p.2 = "" then "Player" else p.2
  | none => "Player"

/-- `joinGame(code, userId)`: find the game by code (`null` on failure); if a
`game_players` row for (game, user) already exists return the game without
inserting; otherwise insert the membership row. The first component is the
returned game id (`none` models the caught error returning `null`). -/
def joinGame (st : Lobby) (code uid : String) : Option String × Lobby :=
  match st.games.find? (fun g => g.code == code) with
  | none => (none, st)
  | some game =>
    match st.game_players.find? (fun p => p.game_id == game.id && p.user_id == uid) with
    | some _ => (some game.id, st)
    | none =>
      (some game.id,
       { st with game_players := st.game_players ++
           [{ game_id := game.id, user_id := uid,
              username := profileUsername st.profiles uid }] })

/-- `Math.random().toString(36).substring(2, 8).toUpperCase()`: `toString(36)`
renders the random value in `[0, 1)` as `"0."` followed by its base-36
fractional digits (characters `0`-`9` and `a`-`z`, with no trailing zero
digits, so the digit list can be shorter than 6 — `0.5` renders as `"0.i"` and
`0` as `"0"` with no digits at all); `substring(2, 8)` keeps at most the first
6 fractional digits; `toUpperCase()` maps each character through the ASCII
upper-casing that `Char.toUpper` implements. -/
def generateCode (digits : List Char) : List Char :=
  (digits.take 6).map Char.toUpper

/-- Characters `Math.random().toString(36)` can produce after the `"0."`. -/
def isBase36Digit (c : Char) : Bool :=
  (48 ≤ c.toNat && c.toNat ≤ 57) || (97 ≤ c.toNat && c.toNat ≤ 122)

/-- Uppercase alphanumeric ASCII characters, the alphabet the spec promises. -/
def isUpperAlnum (c : Char) : Bool :=
  (48 ≤ c.toNat && c.toNat ≤ 57) || (65 ≤ c.toNat && c.toNat ≤ 90)

/-- `createGame(userId)`: generate one code from one random value and insert the
game; the `code TEXT UNIQUE` constraint rejects a duplicate, the thrown error is
caught, and the function returns `null` — there is no second generation
attempt. On success the creator is inserted as the first player. `gid` stands
for the `gen_random_uuid()` primary key of the new row. -/
def createGame (st : Lobby) (digits : List Char) (uid gid : String) :
    Option GameRec × Lobby :=
  let code := String.mk (generateCode digits)
  if st.games.any (fun g => g.code == code) then (none, st)
  else
    let game : GameRec := { id := gid, code := code }
    (some game,
     { st with games := st.games ++ [game],
               game_players := st.game_players ++
                 [{ game_id := gid, user_id := uid,
                    username := profileUsername st.profiles uid }] })

/-! Helper lemmas about the association-list model of the `scoreUpdates` object. -/

theorem lookupA_cons (k : String) (v : Int) (m : List (String × Int)) (uid : String) :
    lookupA ((k, v) :: m) uid = if k == uid then some v else lookupA m uid := by
  cases h : k == uid <;> simp [lookupA, List.find?_cons, h]

theorem lookupA_addToKey (m : List (String × Int)) (u uid : String) (a : Int) :
    lookupA (addToKey m u a) uid =
      if uid = u then (lookupA m uid).map (fun v => v + a) else lookupA m uid := by
  induction m with
  | nil => split <;> rfl
  | cons p m ih =>
    obtain ⟨k, v⟩ := p
    have hcons : addToKey ((k, v) :: m) u a =
        (if k == u then (k, v + a) else (k, v)) :: addToKey m u a := by
      simp only [addToKey, List.map_cons]
    rw [hcons]
    by_cases hku : k = u
    · subst hku
      by_cases hk : k = uid
      · subst hk
        simp [lookupA_cons]
      · have hk' : (k == uid) = false := by simp [hk]
        simp only [beq_self_eq_true, if_true, lookupA_cons, hk', Bool.false_eq_true,
          if_false, ih]
    · have hku' : (k == u) = false := by simp [hku]
      rw [hku']
      by_cases hk : k = uid
      · subst hk
        simp [lookupA_cons, hku]
      · have hk' : (k == uid) = false := by simp [hk]
        simp only [Bool.false_eq_true, if_false, lookupA_cons, hk', ih]

theorem lookupA_isSome_eq_any (m : List (String × Int)) (u : String) :
    (lookupA m u).isSome = m.any (fun p => p.1 == u) := by
  induction m with
  | nil => rfl
  | cons p m ih =>
    obtain ⟨k, v⟩ := p
    rw [lookupA_cons]
    cases h : k == u <;> simp [h, ih]

theorem lookupA_ensureKey (m : List (String × Int)) (u uid : String) :
    lookupA (ensureKey m u) uid =
      if uid = u then some ((lookupA m uid).getD 0) else lookupA m uid := by
  unfold ensureKey
  cases hany : m.any (fun p => p.1 == u) with
  | true =>
    simp only [if_true]
    by_cases h : uid = u
    · subst h
      have : (lookupA m uid).isSome = true := by rw [lookupA_isSome_eq_any]; exact hany
      obtain ⟨v, hv⟩ := Option.isSome_iff_exists.mp this
      simp [hv]
    · simp [h]
  | false =>
    simp only [Bool.false_eq_true, if_false]
    have hnone : lookupA m u = none := by
      have := lookupA_isSome_eq_any m u
      rw [hany] at this
      exact Option.not_isSome_iff_eq_none.mp (by simp [this])
    have hfnone : m.find? (fun p => p.1 == u) = none := by
      cases hf : m.find? (fun p => p.1 == u) with
      | none => rfl
      | some p =>
        exfalso
        have : lookupA m u = some p.2 := by simp [lookupA, hf]
        rw [hnone] at this
        exact Option.noConfusion this
    by_cases h : uid = u
    · subst h
      rw [hnone]
      simp [lookupA, List.find?_append, hfnone, List.find?_cons]
    · have h' : (u == uid) = false := by
        simp only [beq_eq_false_iff_ne, ne_eq]
        exact fun e => h e.symm
      have h1 : List.find? (fun p => p.1 == uid) [((u : String), (0 : Int))] = none := by
        simp [List.find?_cons, h']
      simp [lookupA, List.find?_append, h1, h]

theorem lookupA_tallyStep (ppc : Int) (m : List (String × Int)) (g : GuessRow) (uid : String) :
    lookupA (tallyStep ppc m g) uid =
      if uid = g.user_id then
        some ((lookupA m uid).getD 0 + (if g.is_correct then ppc else 0))
      else lookupA m uid := by
  unfold tallyStep
  cases hc : g.is_correct with
  | true =>
    simp only [if_true]
    rw [lookupA_addToKey, lookupA_ensureKey]
    by_cases h : uid = g.user_id
    · simp [h]
    · simp [h]
  | false =>
    simp only [Bool.false_eq_true, if_false]
    rw [lookupA_ensureKey]
    by_cases h : uid = g.user_id
    · simp [h]
    · simp [h]

/-- Per-player count of correct guesses, as an integer. -/
def correctCount (gs : List GuessRow) (uid : String) : Int :=
  (((userGuesses gs uid).countP (fun g => g.is_correct) : Nat) : Int)

theorem lookupA_foldl_tally (ppc : Int) (gs : List GuessRow) (m : List (String × Int))
    (uid : String) :
    lookupA (gs.foldl (tallyStep ppc) m) uid =
      match lookupA m uid with
      | some v => some (v + ppc * correctCount gs uid)
      | none =>
        if gs.any (fun g => g.user_id == uid) then some (ppc * correctCount gs uid)
        else none := by
  induction gs generalizing m with
  | nil =>
    cases h : lookupA m uid <;> simp [h, correctCount, userGuesses]
  | cons g gs ih =>
    rw [List.foldl_cons, ih, lookupA_tallyStep]
    by_cases h : uid = g.user_id
    · have hbeq : (g.user_id == uid) = true := by simp [h]
      have hfil : userGuesses (g :: gs) uid = g :: userGuesses gs uid := by
        simp [userGuesses, List.filter_cons, hbeq]
      have hcnt : correctCount (g :: gs) uid =
          correctCount gs uid + (if g.is_correct then 1 else 0) := by
        simp only [correctCount, hfil, List.countP_cons]
        cases hgc : g.is_correct <;> simp [hgc]
      rw [if_pos h, hcnt]
      cases hm : lookupA m uid with
      | some v =>
        simp only [Option.getD_some, List.any_cons, hbeq, Bool.true_or, if_true]
        cases hgc : g.is_correct <;> simp [hgc] <;> ring_nf
      | none =>
        simp only [Option.getD_none, List.any_cons, hbeq, Bool.true_or, if_true]
        cases hgc : g.is_correct <;> simp [hgc] <;> ring_nf
    · have hbeq : (g.user_id == uid) = false := by
        simp only [beq_eq_false_iff_ne, ne_eq]
        exact fun e => h e.symm
      have hfil : userGuesses (g :: gs) uid = userGuesses gs uid := by
        simp [userGuesses, List.filter_cons, hbeq]
      have hcnt : correctCount (g :: gs) uid = correctCount gs uid := by
        simp only [correctCount, hfil]
      rw [if_neg h, hcnt]
      simp only [List.any_cons, hbeq, Bool.false_or]

theorem lookupA_map_adjust (m : List (String × Int)) (f : String → Int) (uid : String) :
    lookupA (m.map (fun p => (p.1, p.2 + f p.1))) uid =
      (lookupA m uid).map (fun v => v + f uid) := by
  induction m with
  | nil => rfl
  | cons p m ih =>
    obtain ⟨k, v⟩ := p
    have hcons : ((k, v) :: m).map (fun p => (p.1, p.2 + f p.1)) =
        (k, v + f k) :: m.map (fun p => (p.1, p.2 + f p.1)) := by
      simp only [List.map_cons]
    rw [hcons, lookupA_cons, lookupA_cons]
    cases h : k == uid with
    | true =>
      have : k = uid := by simpa using h
      subst this
      simp
    | false => simp [ih]

theorem list_all_congr {α : Type} {l : List α} {p q : α → Bool}
    (h : ∀ x ∈ l, p x = q x) : l.all p = l.all q := by
  induction l with
  | nil => rfl
  | cons x l ih =>
    simp only [List.all_cons, h x (List.mem_cons_self x l),
      ih (fun y hy => h y (List.mem_cons_of_mem x hy))]

theorem list_countP_congr {α : Type} {l : List α} {p q : α → Bool}
    (h : ∀ x ∈ l, p x = q x) : l.countP p = l.countP q := by
  induction l with
  | nil => rfl
  | cons x l ih =>
    simp only [List.countP_cons, h x (List.mem_cons_self x l),
      ih (fun y hy => h y (List.mem_cons_of_mem x hy))]

/-- C1: for a round scored by `calculateScores`, a player who submitted at
least one guess receives the delta
`correctCount * points_per_correct`, plus `bonus_all_correct` when every one of
their guesses is correct, else plus `penalty_all_wrong` when every one of their
guesses is incorrect, and neither adjustment when partially correct — where a
guess is correct exactly when its position equals the VIP ranking's position
for the same item (`rankingMatches`, the rule `submitGuess` stores in
`is_correct`); a player with no guesses gets no entry in the delta mapping. -/
theorem calculateScores_delta (cfg : ScoreConfig) (rankings : List RankingRow)
    (guesses : List GuessRow)
    (hcor : ∀ g ∈ guesses, g.is_correct = rankingMatches rankings g.item_id g.position)
    (uid : String) :
    (userGuesses guesses uid = [] → lookupA (scoreUpdates cfg guesses) uid = none) ∧
    (userGuesses guesses uid ≠ [] →
      lookupA (scoreUpdates cfg guesses) uid =
        some ((((userGuesses guesses uid).countP
                  (fun g => rankingMatches rankings g.item_id g.position) : Nat) : Int)
                * cfg.points_per_correct
          + (if (userGuesses guesses uid).all
                  (fun g => rankingMatches rankings g.item_id g.position) then
               cfg.bonus_all_correct
             else if (userGuesses guesses uid).all
                  (fun g => !(rankingMatches rankings g.item_id g.position)) then
               cfg.penalty_all_wrong
             else 0))) := by
  have hmap : lookupA (scoreUpdates cfg guesses) uid =
      (lookupA (correctTally cfg.points_per_correct guesses) uid).map
        (fun v => v + bonusAdjust cfg guesses uid) := by
    simp only [scoreUpdates]
    exact lookupA_map_adjust _ _ _
  have htally : lookupA (correctTally cfg.points_per_correct guesses) uid =
      (if guesses.any (fun g => g.user_id == uid) then
         some (cfg.points_per_correct * correctCount guesses uid)
       else none) := by
    have h := lookupA_foldl_tally cfg.points_per_correct guesses [] uid
    have hnil : lookupA ([] : List (String × Int)) uid = none := rfl
    rw [hnil] at h
    exact h
  have hmem : ∀ x ∈ userGuesses guesses uid, x ∈ guesses := by
    intro x hx
    simp only [userGuesses] at hx
    exact (List.mem_filter.mp hx).1
  constructor
  · intro hem
    have hany : (guesses.any (fun g => g.user_id == uid)) = false := by
      rw [List.any_eq_false]
      intro x hx hpx
      have hmemf : x ∈ userGuesses guesses uid := by
        simp only [userGuesses]
        exact List.mem_filter.mpr ⟨hx, hpx⟩
      rw [hem] at hmemf
      exact absurd hmemf (List.not_mem_nil x)
    have hlk : lookupA (correctTally cfg.points_per_correct guesses) uid = none := by
      rw [htally, hany]
      simp
    rw [hmap, hlk]
    rfl
  · intro hne
    have hany : (guesses.any (fun g => g.user_id == uid)) = true := by
      obtain ⟨x, hx⟩ := List.exists_mem_of_ne_nil _ hne
      simp only [userGuesses] at hx
      have hx' := List.mem_filter.mp hx
      exact List.any_eq_true.mpr ⟨x, hx'.1, hx'.2⟩
    have hlk : lookupA (correctTally cfg.points_per_correct guesses) uid =
        some (cfg.points_per_correct * correctCount guesses uid) := by
      rw [htally, hany]
      simp
    rw [hmap, hlk]
    simp only [Option.map_some']
    have hcc : (userGuesses guesses uid).countP (fun g => g.is_correct) =
        (userGuesses guesses uid).countP
          (fun g => rankingMatches rankings g.item_id g.position) :=
      list_countP_congr (fun x hx => hcor x (hmem x hx))
    have hadj : bonusAdjust cfg guesses uid =
        (if (userGuesses guesses uid).all
              (fun g => rankingMatches rankings g.item_id g.position) then
           cfg.bonus_all_correct
         else if (userGuesses guesses uid).all
              (fun g => !(rankingMatches rankings g.item_id g.position)) then
           cfg.penalty_all_wrong
         else 0) := by
      simp only [bonusAdjust]
      rw [list_all_congr (l := userGuesses guesses uid)
            (p := fun g => g.is_correct)
            (q := fun g => rankingMatches rankings g.item_id g.position)
            (fun x hx => hcor x (hmem x hx)),
          list_all_congr (l := userGuesses guesses uid)
            (p := fun g => !g.is_correct)
            (q := fun g => !(rankingMatches rankings g.item_id g.position))
            (fun x hx => by simp only [hcor x (hmem x hx)])]
    congr 1
    rw [hadj]
    simp only [correctCount, hcc]
    ring

/-- Witness for C1: two players, an empty-guess player excluded, and a
partially-correct player receiving exactly one `points_per_correct` with
neither bonus nor penalty. -/
theorem calculateScores_delta_witness :
    lookupA
      (scoreUpdates ⟨100, 200, -50⟩
        [⟨"u1", "a", 1, true⟩, ⟨"u1", "b", 3, false⟩]) "u1" = some 100 := by
  have h := calculateScores_delta ⟨100, 200, -50⟩ [⟨"a", 1⟩, ⟨"b", 2⟩]
    [⟨"u1", "a", 1, true⟩, ⟨"u1", "b", 3, false⟩] (by decide) "u1"
  have h2 := h.2 (by decide)
  rw [h2]
  decide

/-- C3: advancing the reveal of a round in the `revealing` state either
increments `reveal_index` by exactly 1 (when the incremented index does not
exceed the item count) without invoking the Scoring Engine, or — when
incrementing would exceed the item count, in particular when `reveal_index`
already equals the item count — marks the round `complete` and invokes
`calculateScores` exactly once; `reveal_index` never exceeds the item count. -/
theorem revealNext_spec (r : RoundRow) (n : Nat) (hrev : r.status = RoundStatus.revealing) :
    (r.reveal_index < n →
       (revealNext r r.reveal_index n).round.reveal_index = r.reveal_index + 1 ∧
       (revealNext r r.reveal_index n).round.status = RoundStatus.revealing ∧
       (revealNext r r.reveal_index n).scoringInvocations = 0) ∧
    (n ≤ r.reveal_index →
       (revealNext r r.reveal_index n).round.status = RoundStatus.complete ∧
       (revealNext r r.reveal_index n).round.reveal_index = r.reveal_index ∧
       (revealNext r r.reveal_index n).scoringInvocations = 1) ∧
    (r.reveal_index ≤ n → (revealNext r r.reveal_index n).round.reveal_index ≤ n) := by
  refine ⟨?_, ?_, ?_⟩
  · intro hlt
    have hcond : ¬ n < r.reveal_index + 1 := by omega
    simp [revealNext, hcond, hrev]
  · intro hle
    have hcond : n < r.reveal_index + 1 := by omega
    simp [revealNext, hcond]
  · intro hle
    by_cases hcond : n < r.reveal_index + 1
    · simp [revealNext, hcond]
      omega
    · simp [revealNext, hcond]
      omega

/-- Witness for C3: with 3 items, advancing from `reveal_index = 2` increments
to 3 with no scoring call, and advancing from `reveal_index = 3` completes the
round with exactly one scoring call. -/
theorem revealNext_spec_witness :
    (revealNext ⟨RoundStatus.revealing, 2⟩ 2 3).round.reveal_index = 3 ∧
    (revealNext ⟨RoundStatus.revealing, 3⟩ 3 3).round.status = RoundStatus.complete ∧
    (revealNext ⟨RoundStatus.revealing, 3⟩ 3 3).scoringInvocations = 1 := by
  refine ⟨((revealNext_spec ⟨RoundStatus.revealing, 2⟩ 3 rfl).1 (by decide)).1, ?_, ?_⟩
  · exact ((revealNext_spec ⟨RoundStatus.revealing, 3⟩ 3 rfl).2.1 (by decide)).1
  · exact ((revealNext_spec ⟨RoundStatus.revealing, 3⟩ 3 rfl).2.1 (by decide)).2.2

/-- C10: `rotateVIP` with a null `current_vip_id` returns `false` and mutates
nothing; with a VIP id that is absent from the supplied (non-empty) player
list it does not fail — `findIndex` returns `-1`, `(-1 + 1) % length = 0`, and
the first player of the supplied list becomes the new VIP. -/
theorem rotateVIP_edge (g : GameRow) (players : List String) :
    (g.current_vip_id = none → rotateVIP g players = (false, g)) ∧
    (∀ vip p0 rest, g.current_vip_id = some vip → players = p0 :: rest →
       vip ∉ players →
       rotateVIP g players = (true, { g with current_vip_id := some p0 })) := by
  constructor
  · intro h
    simp [rotateVIP, h]
  · intro vip p0 rest hvip hps hmem
    subst hps
    have hfind : (p0 :: rest).findIdx? (fun u => u == vip) = none := by
      rw [List.findIdx?_eq_none_iff]
      intro x hx
      simp only [beq_eq_false_iff_ne, ne_eq]
      intro he
      exact hmem (he ▸ hx)
    have hlen : ((p0 :: rest).length : Int) = (rest.length : Int) + 1 := by
      simp
    simp only [rotateVIP, hvip, List.isEmpty_cons, Bool.false_eq_true, if_false, hfind]
    have hmod : ((-1 + 1) % ((p0 :: rest).length : Int)).toNat = 0 := by
      have : (-1 + 1 : Int) = 0 := by ring
      rw [this, Int.zero_emod]
      rfl
    rw [hmod]
    rfl

/-- Witness for C10: a null VIP is rejected without mutation, and a VIP absent
from the list rotates to the first listed player. -/
theorem rotateVIP_edge_witness :
    rotateVIP ⟨none, GameStatus.playing, 1000⟩ ["a", "b"] =
      (false, ⟨none, GameStatus.playing, 1000⟩) ∧
    rotateVIP ⟨some "x", GameStatus.playing, 1000⟩ ["a", "b"] =
      (true, ⟨some "a", GameStatus.playing, 1000⟩) := by
  constructor
  · exact (rotateVIP_edge ⟨none, GameStatus.playing, 1000⟩ ["a", "b"]).1 rfl
  · exact (rotateVIP_edge ⟨some "x", GameStatus.playing, 1000⟩ ["a", "b"]).2
      "x" "a" ["b"] rfl rfl (by decide)

/-- Ordering of game statuses along the intended waiting → playing → finished
progression. -/
def statusRank : GameStatus → Nat
  | GameStatus.waiting => 0
  | GameStatus.playing => 1
  | GameStatus.finished => 2

theorem checkGameOver_cases (g : GameRow) (players : List PlayerRow) :
    checkGameOver g players = g ∨
    checkGameOver g players = { g with status := GameStatus.finished } := by
  unfold checkGameOver
  split <;> split <;> first
    | exact Or.inr rfl
    | exact Or.inl rfl

/-- Counterexample to C6: a finished game is reachable (start a round, then a
player reaches the target), and calling `startRound` on it moves the status
backward from `finished` to `playing` — `startRound` sets `'playing'`
unconditionally. -/
theorem game_status_backward_counterexample :
    (checkGameOver (startRound ⟨some "u", GameStatus.waiting, 1000⟩) [⟨"u", 1000⟩]).status =
      GameStatus.finished ∧
    (startRound (checkGameOver (startRound ⟨some "u", GameStatus.waiting, 1000⟩)
        [⟨"u", 1000⟩])).status = GameStatus.playing := by
  decide

/-- C6 amended: the win check of `calculateScores` only ever moves the game
status forward, no operation ever sets the status back to `waiting`, and
`startRound` moves the status forward from any state except `finished` — but
`startRound` performs no status check, so invoking it on a finished game moves
the status backward to `playing`. -/
theorem game_status_forward (g : GameRow) (players : List PlayerRow) :
    statusRank g.status ≤ statusRank (checkGameOver g players).status ∧
    (startRound g).status ≠ GameStatus.waiting ∧
    (g.status ≠ GameStatus.finished →
      statusRank g.status ≤ statusRank (startRound g).status) := by
  refine ⟨?_, ?_, ?_⟩
  · rcases checkGameOver_cases g players with h | h
    · rw [h]
    · rw [h]
      cases g.status <;> simp [statusRank]
  · simp [startRound]
  · intro h
    cases hs : g.status with
    | waiting => simp [startRound, statusRank, hs]
    | playing => simp [startRound, statusRank, hs]
    | finished => exact absurd hs h

/-- Witness for C6 amended: a waiting game moves forward under both the win
check and `startRound`. -/
theorem game_status_forward_witness :
    statusRank (⟨none, GameStatus.waiting, 1000⟩ : GameRow).status ≤
      statusRank (checkGameOver ⟨none, GameStatus.waiting, 1000⟩ []).status ∧
    statusRank (⟨none, GameStatus.waiting, 1000⟩ : GameRow).status ≤
      statusRank (startRound ⟨none, GameStatus.waiting, 1000⟩).status := by
  exact ⟨(game_status_forward ⟨none, GameStatus.waiting, 1000⟩ []).1,
         (game_status_forward ⟨none, GameStatus.waiting, 1000⟩ []).2.2 (by decide)⟩

/-- Counterexample to C4: an incomplete (wrong-length) VIP ranking — one item
ranked out of a three-item topic — is not rejected: `submitVIPRanking` returns
success, inserts the row, and advances the round to `player_guessing`. The
function performs no completeness validation; only the database uniqueness and
foreign-key constraints can reject a submission. -/
theorem submitVIPRanking_incomplete_accepted :
    ([(("a" : String), (1 : Int))].length ≠ (["a", "b", "c"] : List String).length) ∧
    (submitVIPRanking ⟨["a", "b", "c"], [], RoundStatus.vip_ranking⟩ [("a", 1)]).1 = true ∧
    (submitVIPRanking ⟨["a", "b", "c"], [], RoundStatus.vip_ranking⟩ [("a", 1)]).2 =
      ⟨["a", "b", "c"], [⟨"a", 1⟩], RoundStatus.player_guessing⟩ := by
  decide

/-- C4 amended: a VIP ranking submission that violates a database constraint —
an item id unknown to the topic (foreign key), a duplicated item id, or a
duplicated position — fails the atomic insert: `submitVIPRanking` returns
`false`, inserts no ranking row, and does not advance the round's status; a
submission satisfying those constraints is accepted and advances the status to
`player_guessing` regardless of its length (wrong-length submissions are not
validated). -/
theorem submitVIPRanking_constraints (st : RankingInsertState)
    (rankings : List (String × Int)) :
    (¬ (newRankingRows rankings).all (fun r => st.topicItems.contains r.item_id) = true ∨
     ¬ allDistinct ((st.rows ++ newRankingRows rankings).map (fun r => r.item_id)) = true ∨
     ¬ allDistinct ((st.rows ++ newRankingRows rankings).map (fun r => r.position)) = true →
       submitVIPRanking st rankings = (false, st)) ∧
    (rankingInsertOK st.topicItems st.rows (newRankingRows rankings) = true →
       submitVIPRanking st rankings =
         (true, { st with rows := st.rows ++ newRankingRows rankings,
                          status := RoundStatus.player_guessing })) := by
  constructor
  · intro hbad
    have hok : rankingInsertOK st.topicItems st.rows (newRankingRows rankings) = false := by
      unfold rankingInsertOK
      rcases hbad with h | h | h
      · rw [Bool.eq_false_iff]
        intro hc
        exact h (Bool.and_eq_true_iff.mp (Bool.and_eq_true_iff.mp hc).1).1
      · rw [Bool.eq_false_iff]
        intro hc
        exact h (Bool.and_eq_true_iff.mp (Bool.and_eq_true_iff.mp hc).1).2
      · rw [Bool.eq_false_iff]
        intro hc
        exact h (Bool.and_eq_true_iff.mp hc).2
    simp only [submitVIPRanking]
    rw [hok]
    simp
  · intro hok
    simp only [submitVIPRanking]
    rw [hok]
    simp

/-- Witness for C4 amended: a duplicated position is rejected with no state
change, and a complete valid permutation is accepted. -/
theorem submitVIPRanking_constraints_witness :
    submitVIPRanking ⟨["a", "b", "c"], [], RoundStatus.vip_ranking⟩
        [("a", 1), ("b", 1)] = (false, ⟨["a", "b", "c"], [], RoundStatus.vip_ranking⟩) ∧
    submitVIPRanking ⟨["a", "b", "c"], [], RoundStatus.vip_ranking⟩
        [("a", 1), ("b", 2), ("c", 3)] =
      (true, ⟨["a", "b", "c"], [⟨"a", 1⟩, ⟨"b", 2⟩, ⟨"c", 3⟩], RoundStatus.player_guessing⟩) := by
  constructor
  · exact (submitVIPRanking_constraints ⟨["a", "b", "c"], [], RoundStatus.vip_ranking⟩
      [("a", 1), ("b", 1)]).1 (Or.inr (Or.inr (by decide)))
  · exact (submitVIPRanking_constraints ⟨["a", "b", "c"], [], RoundStatus.vip_ranking⟩
      [("a", 1), ("b", 2), ("c", 3)]).2 (by decide)

/-- Counterexample to C5: a guess submitted while the round is in the
`revealing` state (status ≠ `player_guessing`) is not rejected —
`submitGuess` succeeds and stores the guess row, because the function never
reads the round's status. -/
theorem submitGuess_wrong_state_accepted :
    (submitGuess ⟨["a"], [⟨"a", 1⟩], RoundStatus.revealing, []⟩ "u" [("a", 1)]).1 = true ∧
    (submitGuess ⟨["a"], [⟨"a", 1⟩], RoundStatus.revealing, []⟩ "u" [("a", 1)]).2.guessRows =
      [⟨"u", "a", 1, true⟩] := by
  decide

/-- C5 amended: `submitGuess` performs no round-status check at all — both its
returned success flag and the guess rows it stores are identical whatever the
round's status is; it can fail only through the guesses-table uniqueness and
foreign-key constraints. -/
theorem submitGuess_ignores_round_status (st : GuessInsertState) (s : RoundStatus)
    (uid : String) (guesses : List (String × Int)) :
    (submitGuess { st with roundStatus := s } uid guesses).1 =
      (submitGuess st uid guesses).1 ∧
    (submitGuess { st with roundStatus := s } uid guesses).2.guessRows =
      (submitGuess st uid guesses).2.guessRows := by
  simp only [submitGuess]
  split <;> simp

/-- Total score delta contributed to a player by the writes that succeeded. -/
def succeededDelta (updates : List (String × Int)) (writeOK : String → Bool)
    (uid : String) : Int :=
  ((updates.filter (fun u => writeOK u.1 && u.1 == uid)).map (fun u => u.2)).sum

theorem succeededDelta_cons (u : String × Int) (updates : List (String × Int))
    (writeOK : String → Bool) (uid : String) :
    succeededDelta (u :: updates) writeOK uid =
      (if writeOK u.1 && u.1 == uid then u.2 else 0) + succeededDelta updates writeOK uid := by
  simp only [succeededDelta, List.filter_cons]
  split
  · simp
  · simp

theorem playerRow_eta (p : PlayerRow) : ({ p with score := p.score + 0 }) = p := by
  cases p with
  | mk u s => simp

theorem runScoreWrites_go (updates : List (String × Int)) (writeOK : String → Bool) :
    ∀ (ps : List PlayerRow) (b : Bool),
      updates.foldl
        (fun acc u =>
          if writeOK u.1 then (applyOneUpdate acc.1 u.1 u.2, acc.2) else (acc.1, false))
        (ps, b) =
      (ps.map (fun p =>
         { p with score := p.score + succeededDelta updates writeOK p.user_id }),
       b && updates.all (fun u => writeOK u.1)) := by
  induction updates with
  | nil =>
    intro ps b
    have hmap : ps.map (fun p =>
        { p with score := p.score + succeededDelta [] writeOK p.user_id }) = ps := by
      have hpt : ∀ p : PlayerRow,
          ({ p with score := p.score + succeededDelta [] writeOK p.user_id }) = p := by
        intro p
        have h0 : succeededDelta [] writeOK p.user_id = 0 := rfl
        rw [h0]
        exact playerRow_eta p
      rw [List.map_congr_left (fun p _ => hpt p), List.map_id']
    rw [List.foldl_nil, hmap]
    simp
  | cons u updates ih =>
    intro ps b
    rw [List.foldl_cons]
    by_cases hw : writeOK u.1
    · rw [if_pos hw, ih]
      have hmap : (applyOneUpdate ps u.1 u.2).map (fun p =>
          { p with score := p.score + succeededDelta updates writeOK p.user_id }) =
          ps.map (fun p =>
            { p with score := p.score + succeededDelta (u :: updates) writeOK p.user_id }) := by
        simp only [applyOneUpdate, List.map_map]
        apply List.map_congr_left
        intro p _
        simp only [Function.comp_apply]
        by_cases hpu : p.user_id == u.1
        · have hpu' : (u.1 == p.user_id) = true := by
            have : p.user_id = u.1 := by simpa using hpu
            simp [this]
          rw [if_pos hpu]
          have : succeededDelta (u :: updates) writeOK p.user_id =
              u.2 + succeededDelta updates writeOK p.user_id := by
            rw [succeededDelta_cons, hw, hpu']
            simp
          rw [this]
          show ({ p with score := p.score + u.2 +
              succeededDelta updates writeOK p.user_id }) = _
          simp only [PlayerRow.mk.injEq, true_and]
          ring
        · have hpu' : (u.1 == p.user_id) = false := by
            have hne : ¬p.user_id = u.1 := by simpa using hpu
            simp only [beq_eq_false_iff_ne, ne_eq]
            exact fun e => hne e.symm
          rw [if_neg (by simp_all)]
          have : succeededDelta (u :: updates) writeOK p.user_id =
              succeededDelta updates writeOK p.user_id := by
            rw [succeededDelta_cons, hw, hpu']
            simp
          rw [this]
      rw [hmap]
      simp [hw]
    · rw [if_neg hw, ih]
      have hw' : writeOK u.1 = false := by simpa using hw
      have hmap : ps.map (fun p =>
          { p with score := p.score + succeededDelta updates writeOK p.user_id }) =
          ps.map (fun p =>
            { p with score := p.score + succeededDelta (u :: updates) writeOK p.user_id }) := by
        apply List.map_congr_left
        intro p _
        have : succeededDelta (u :: updates) writeOK p.user_id =
            succeededDelta updates writeOK p.user_id := by
          rw [succeededDelta_cons, hw']
          simp
        rw [this]
      rw [hmap]
      simp [hw']

theorem runScoreWrites_eq (ps : List PlayerRow) (updates : List (String × Int))
    (writeOK : String → Bool) :
    runScoreWrites ps updates writeOK =
      (ps.map (fun p =>
         { p with score := p.score + succeededDelta updates writeOK p.user_id }),
       updates.all (fun u => writeOK u.1)) := by
  unfold runScoreWrites
  rw [runScoreWrites_go]
  simp

/-- Counterexample to C7: with two equal deltas and a persistence layer whose
write for player B fails, `calculateScores` leaves player A scored and player B
unscored for the same round, and still reports success to its caller (per-write
errors are discarded and the surrounding catch only logs). -/
theorem calculateScores_partial_counterexample :
    (calculateScoresOutcome [⟨"A", 0⟩, ⟨"B", 0⟩] [("A", 100), ("B", 100)]
        (fun u => u == "A")).1 = [⟨"A", 100⟩, ⟨"B", 0⟩] ∧
    (calculateScoresOutcome [⟨"A", 0⟩, ⟨"B", 0⟩] [("A", 100), ("B", 100)]
        (fun u => u == "A")).2 = true := by
  decide

/-- C7 amended: score deltas are applied player-by-player as independent
writes, not atomically — each player's final score reflects exactly the subset
of writes that succeeded (`succeededDelta`), so a mid-batch failure leaves the
successfully-written players scored and the others not — and the outcome
reported to the caller is success regardless of write failures. -/
theorem calculateScores_per_player_writes (ps : List PlayerRow)
    (updates : List (String × Int)) (writeOK : String → Bool) :
    (calculateScoresOutcome ps updates writeOK).2 = true ∧
    (calculateScoresOutcome ps updates writeOK).1 =
      ps.map (fun p =>
        { p with score := p.score + succeededDelta updates writeOK p.user_id }) := by
  constructor
  · rfl
  · show (runScoreWrites ps updates writeOK).1 = _
    rw [runScoreWrites_eq]

/-- Membership rows stored for a given (game, user) pair. -/
def membershipCount (st : Lobby) (gid uid : String) : Nat :=
  (st.game_players.filter (fun p => p.game_id == gid && p.user_id == uid)).length

theorem length_filter_append_singleton {α : Type} (p : α → Bool) (l : List α) (x : α) :
    (List.filter p (l ++ [x])).length =
      (List.filter p l).length + (if p x then 1 else 0) := by
  rw [List.filter_append, List.length_append]
  congr 1
  rw [List.filter_cons]
  split <;> simp

/-- C8: `joinGame` is idempotent — a second call with the same code and user
returns the same result (the existing membership's game, not an error) and
leaves the state unchanged — and it never creates a duplicate `game_players`
row for a (game, user) pair: afterwards the pair has at most one row beyond
whatever was already stored. -/
theorem joinGame_idempotent (st : Lobby) (code uid : String) :
    joinGame (joinGame st code uid).2 code uid = joinGame st code uid ∧
    (∀ gid, membershipCount (joinGame st code uid).2 gid uid ≤
       max 1 (membershipCount st gid uid)) := by
  cases hg : st.games.find? (fun g => g.code == code) with
  | none =>
    have hj : joinGame st code uid = (none, st) := by
      simp only [joinGame, hg]
    rw [hj]
    exact ⟨by simp only [joinGame, hg], fun gid => Nat.le_max_right _ _⟩
  | some game =>
    cases hp : st.game_players.find?
        (fun p => p.game_id == game.id && p.user_id == uid) with
    | some row =>
      have hj : joinGame st code uid = (some game.id, st) := by
        simp only [joinGame, hg, hp]
      rw [hj]
      exact ⟨by simp only [joinGame, hg, hp], fun gid => Nat.le_max_right _ _⟩
    | none =>
      have hj : joinGame st code uid =
          (some game.id,
           { st with game_players := st.game_players ++
               [{ game_id := game.id, user_id := uid,
                  username := profileUsername st.profiles uid }] }) := by
        simp only [joinGame, hg, hp]
      rw [hj]
      constructor
      · have hp2 : (st.game_players ++
            [({ game_id := game.id, user_id := uid,
                username := profileUsername st.profiles uid } : PlayerRec)]).find?
            (fun p => p.game_id == game.id && p.user_id == uid) =
            some { game_id := game.id, user_id := uid,
                   username := profileUsername st.profiles uid } := by
          rw [List.find?_append, hp]
          simp [List.find?_cons]
        simp only [joinGame, hg, hp2]
      · intro gid
        have hfil0 : st.game_players.filter
            (fun p => p.game_id == game.id && p.user_id == uid) = [] := by
          rw [List.filter_eq_nil_iff]
          intro p hpmem hpred
          have := List.find?_eq_none.mp hp p hpmem
          exact this hpred
        simp only [membershipCount]
        rw [length_filter_append_singleton]
        by_cases hgid : game.id = gid
        · subst hgid
          rw [hfil0]
          simp only [List.length_nil, Nat.zero_add]
          split <;> simp
        · have hz : (if (fun p => p.game_id == gid && p.user_id == uid)
              ({ game_id := game.id, user_id := uid,
                 username := profileUsername st.profiles uid } : PlayerRec) then 1 else 0) = 0 := by
            simp [hgid]
          rw [hz, Nat.add_zero]
          exact Nat.le_max_right _ _

/-- Counterexample to C2: with `target_score = 0`, player "a"'s score 5 is ≥
`target_score`, so the claim requires the game's status to be set to
`finished` — but the win check of `calculateScores` compares against the
`target_score || 1000` fallback, so the game stays `playing`. (The VIP is
indeed not rotated: the scoreboard's winner check uses the raw comparison,
sees 5 ≥ 0, and never offers the rotate action.) -/
theorem applyRoundResult_zero_target_counterexample :
    ((0 : Int) ≤ 5) ∧
    (applyRoundResult ⟨some "a", GameStatus.playing, 0⟩
        [⟨"a", 5⟩, ⟨"b", 0⟩] []).1.status = GameStatus.playing ∧
    (applyRoundResult ⟨some "a", GameStatus.playing, 0⟩
        [⟨"a", 5⟩, ⟨"b", 0⟩] []).1.current_vip_id = some "a" := by
  decide

/-- C2 amended: after `applyRoundResult` applies the round's score deltas, two
distinct comparisons govern the outcome. The win check sets the status to
`finished` when some player's score reaches `target_score` with a stored `0`
replaced by the fallback `1000`; the rotation gate (the scoreboard's winner
check) uses the raw stored `target_score`. Whenever some player's score ≥ the
raw `target_score` the VIP is not rotated — and if only the raw target was
reached (possible solely when `target_score = 0`) the game nevertheless stays
`playing`; when no player reaches the raw `target_score` the game remains
`playing` and the current VIP (at index `i` of the join-ordered player list)
is replaced by the player at index `(i + 1) % length`, wrapping around from
the last player to the first. For `target_score ≠ 0` the two comparisons
coincide and the claim holds exactly as stated. -/
theorem applyRoundResult_spec (g : GameRow) (ps : List PlayerRow)
    (updates : List (String × Int)) (vip : String) (i : Nat)
    (hplay : g.status = GameStatus.playing)
    (hvip : g.current_vip_id = some vip)
    (hfind : ((applyScoreUpdates ps updates).map (fun p => p.user_id)).findIdx?
        (fun u => u == vip) = some i) :
    ((applyScoreUpdates ps updates).any
        (fun p => (if g.target_score = 0 then 1000 else g.target_score) ≤ p.score) = true →
      (applyRoundResult g ps updates).1.status = GameStatus.finished ∧
      (applyRoundResult g ps updates).1.current_vip_id = some vip) ∧
    ((applyScoreUpdates ps updates).any
        (fun p => (if g.target_score = 0 then 1000 else g.target_score) ≤ p.score) = false →
     (applyScoreUpdates ps updates).any
        (fun p => g.target_score ≤ p.score) = true →
      (applyRoundResult g ps updates).1.status = GameStatus.playing ∧
      (applyRoundResult g ps updates).1.current_vip_id = some vip) ∧
    ((applyScoreUpdates ps updates).any
        (fun p => g.target_score ≤ p.score) = false →
      (applyRoundResult g ps updates).1.status = GameStatus.playing ∧
      (applyRoundResult g ps updates).1.current_vip_id =
        ((applyScoreUpdates ps updates).map (fun p => p.user_id)).get?
          ((i + 1) % ((applyScoreUpdates ps updates).map (fun p => p.user_id)).length)) ∧
    (applyRoundResult g ps updates).2 = applyScoreUpdates ps updates := by
  set ps' := applyScoreUpdates ps updates with hps'
  set us := ps'.map (fun p => p.user_id) with hus
  refine ⟨?_, ?_, ?_, ?_⟩
  · intro h
    have hraw : ps'.any (fun p => g.target_score ≤ p.score) = true := by
      rw [List.any_eq_true] at h ⊢
      obtain ⟨p, hp, hle⟩ := h
      refine ⟨p, hp, ?_⟩
      simp only [decide_eq_true_eq] at hle ⊢
      by_cases h0 : g.target_score = 0
      · rw [if_pos h0] at hle
        omega
      · rw [if_neg h0] at hle
        exact hle
    have hcheck : checkGameOver g ps' = { g with status := GameStatus.finished } := by
      unfold checkGameOver
      rw [h]
      simp
    have happ : applyRoundResult g ps updates = (checkGameOver g ps', ps') := by
      simp only [applyRoundResult, ← hps']
      rw [hraw]
      simp
    rw [happ, hcheck]
    exact ⟨rfl, hvip⟩
  · intro h hraw
    have hcheck : checkGameOver g ps' = g := by
      unfold checkGameOver
      rw [h]
      simp
    have happ : applyRoundResult g ps updates = (checkGameOver g ps', ps') := by
      simp only [applyRoundResult, ← hps']
      rw [hraw]
      simp
    rw [happ, hcheck]
    exact ⟨hplay, hvip⟩
  · intro hraw
    have hfb : ps'.any
        (fun p => (if g.target_score = 0 then 1000 else g.target_score) ≤ p.score) = false := by
      rw [List.any_eq_false] at hraw ⊢
      intro p hp hle
      refine hraw p hp ?_
      simp only [decide_eq_true_eq] at hle ⊢
      by_cases h0 : g.target_score = 0
      · rw [if_pos h0] at hle
        omega
      · rw [if_neg h0] at hle
        exact hle
    have hcheck : checkGameOver g ps' = g := by
      unfold checkGameOver
      rw [hfb]
      simp
    obtain ⟨hi, -⟩ := List.findIdx?_eq_some_iff_findIdx_eq.mp hfind
    have hemp : us.isEmpty = false := by
      cases hu : us with
      | nil =>
        rw [hu] at hi
        simp at hi
      | cons a l => rfl
    have hmodlt : (i + 1) % us.length < us.length := Nat.mod_lt _ (by omega)
    obtain ⟨x, hx⟩ : ∃ x, us.get? ((i + 1) % us.length) = some x :=
      ⟨us.get ⟨(i + 1) % us.length, hmodlt⟩, List.get?_eq_get hmodlt⟩
    have hcast : (((i : Int) + 1) % ((us.length : Nat) : Int)).toNat =
        (i + 1) % us.length := by
      have h1 : ((i : Int) + 1) = ((i + 1 : Nat) : Int) := by push_cast; ring
      rw [h1, ← Int.ofNat_emod]
      exact Int.toNat_natCast _
    have hrot : rotateVIP g us = (true, { g with current_vip_id := some x }) := by
      simp only [rotateVIP, hvip, hemp, Bool.false_eq_true, if_false, hfind, hcast, hx]
    have happ : applyRoundResult g ps updates =
        ((rotateVIP (checkGameOver g ps') us).2, ps') := by
      simp only [applyRoundResult, ← hps', ← hus]
      rw [hraw]
      simp
    rw [happ, hcheck, hrot]
    exact ⟨hplay, hx.symm⟩
  · simp only [applyRoundResult]
    split
    · rfl
    · rfl

/-- Witness for C2 amended (the spec's own example): players with scores
[950, 1000, 800] and target 1000 — the game finishes and the VIP stays. -/
theorem applyRoundResult_spec_witness :
    (applyRoundResult ⟨some "a", GameStatus.playing, 1000⟩
        [⟨"a", 950⟩, ⟨"b", 1000⟩, ⟨"c", 800⟩] []).1.status = GameStatus.finished ∧
    (applyRoundResult ⟨some "a", GameStatus.playing, 1000⟩
        [⟨"a", 950⟩, ⟨"b", 1000⟩, ⟨"c", 800⟩] []).1.current_vip_id = some "a" := by
  exact (applyRoundResult_spec ⟨some "a", GameStatus.playing, 1000⟩
      [⟨"a", 950⟩, ⟨"b", 1000⟩, ⟨"c", 800⟩] [] "a" 0 rfl rfl
      (by decide)).1 (by decide)

theorem toNat_ofNat_valid (n : Nat) (h : n < 55296) : (Char.ofNat n).toNat = n := by
  rw [Char.ofNat, dif_pos (Or.inl h)]
  rfl

theorem base36_toUpper_upperAlnum (c : Char) (h : isBase36Digit c = true) :
    isUpperAlnum (Char.toUpper c) = true := by
  simp only [isBase36Digit, Bool.or_eq_true, Bool.and_eq_true, decide_eq_true_eq] at h
  simp only [Char.toUpper]
  split
  · next hl =>
    have hv : (Char.ofNat (Char.toNat c - 32)).toNat = Char.toNat c - 32 :=
      toNat_ofNat_valid _ (by omega)
    simp only [isUpperAlnum, Bool.or_eq_true, Bool.and_eq_true, decide_eq_true_eq, hv]
    right
    omega
  · next hl =>
    simp only [isUpperAlnum, Bool.or_eq_true, Bool.and_eq_true, decide_eq_true_eq]
    left
    rcases h with h | h
    · exact h
    · exact absurd ⟨h.1, h.2⟩ hl

/-- Counterexample to C9: the random value 0.5 renders in base 36 as `"0.i"`,
so the generated code is the single character `"I"` — not exactly 6 characters
— and when the generated code collides with an existing game's code the insert
fails and `createGame` returns `null` with the state unchanged: no new code is
generated and nothing is retried. -/
theorem createGame_counterexample :
    (String.mk (generateCode ['i'])).length = 1 ∧
    createGame ⟨[⟨"g1", "I"⟩], [], []⟩ ['i'] "u" "g2" =
      (none, ⟨[⟨"g1", "I"⟩], [], []⟩) := by
  constructor
  · rfl
  · simp only [createGame]
    split
    · rfl
    · next hc =>
      exfalso
      apply hc
      decide

/-- C9 amended: the join code is the first at-most-6 base-36 fractional digits
of the random value, uppercased — so it is always uppercase alphanumeric and at
most 6 characters long, but shorter than 6 when the base-36 expansion
terminates early; a code colliding with any existing game's code (the `UNIQUE`
column constraint) makes `createGame` fail, returning `null` and leaving the
state unchanged, with no retry, while a non-colliding code is inserted as the
new game's code. -/
theorem createGame_code_spec (st : Lobby) (digits : List Char) (uid gid : String)
    (hd : digits.all isBase36Digit = true) :
    (generateCode digits).length ≤ 6 ∧
    (generateCode digits).all isUpperAlnum = true ∧
    ((st.games.any (fun g => g.code == String.mk (generateCode digits))) = true →
       createGame st digits uid gid = (none, st)) ∧
    ((st.games.any (fun g => g.code == String.mk (generateCode digits))) = false →
       (createGame st digits uid gid).1 =
         some { id := gid, code := String.mk (generateCode digits) }) := by
  refine ⟨?_, ?_, ?_, ?_⟩
  · simp only [generateCode, List.length_map, List.length_take]
    omega
  · simp only [generateCode]
    rw [List.all_eq_true]
    intro x hx
    obtain ⟨c, hc, hcx⟩ := List.mem_map.mp hx
    have hcd : isBase36Digit c = true := by
      have := List.all_eq_true.mp hd c (List.mem_of_mem_take hc)
      exact this
    rw [← hcx]
    exact base36_toUpper_upperAlnum c hcd
  · intro h
    simp only [createGame, h]
    rfl
  · intro h
    simp only [createGame, h]
    rfl

/-- Witness for C9 amended: six base-36 digits produce the 6-character
uppercase code `"AB1234"`, accepted into an empty lobby. -/
theorem createGame_code_spec_witness :
    (generateCode ['a', 'b', '1', '2', '3', '4']).length ≤ 6 ∧
    (generateCode ['a', 'b', '1', '2', '3', '4']).all isUpperAlnum = true ∧
    (createGame ⟨[], [], []⟩ ['a', 'b', '1', '2', '3', '4'] "u" "g").1 =
      some { id := "g", code := "AB1234" } := by
  have h := createGame_code_spec ⟨[], [], []⟩ ['a', 'b', '1', '2', '3', '4'] "u" "g"
    (by decide)
  refine ⟨h.1, h.2.1, ?_⟩
  have h4 := h.2.2.2 (by decide)
  rw [h4]
  rfl

end Knowsy
